import Mathlib

set_option maxRecDepth 4000

/-
Verification of `src/scripts/check_file_length.py`.

The script is a CLI checker: for each path on the command line it opens the
file, counts its lines with `len(f.readlines())`, prints a diagnostic when the
count exceeds `MAX_LINES = 500`, and exits with code 1 when any file was over
the limit.  File contents are modelled as lists of characters (after the text
layer's newline translation, so a line break is exactly the character given by
Char.ofNat 10), the filesystem as a function from path to
`Option (List Char)` where `none` models any exception raised while opening or
reading the file, and `main` as a pure function returning the list of lines
written to standard output together with the exit code.
-/

namespace CheckFileLength

/-- Constant `MAX_LINES = 500` from line 5 of the script. -/
def MAX_LINES : Nat := 500

/-- The newline character, the line terminator of the text layer. -/
def NL : Char := Char.ofNat 10

/-- Model of Python `f.readlines()`: splits the content into newline-terminated
records, keeping the terminators; a final record lacking its terminator is
still returned.  `acc` holds the reversed characters of the record being
scanned. -/
def readlinesAux : List Char → List Char → List (List Char)
  | [], acc => if acc.isEmpty then [] else [acc.reverse]
  | c :: rest, acc =>
    if c = NL then (acc.reverse ++ [NL]) :: readlinesAux rest []
    else readlinesAux rest (c :: acc)

/-- Model of Python `f.readlines()` on a whole file content. -/
def readlines (content : List Char) : List (List Char) :=
  readlinesAux content []

/-- Line 12 of the script: `lines = len(f.readlines())`. -/
def lineCount (content : List Char) : Nat :=
  (readlines content).length

/-- Line 14 of the script: the diagnostic printed for an oversized file,
`f"{filepath}: {lines} lines (max {MAX_LINES})"`. -/
def diagnostic (filepath : String) (lines : Nat) : String :=
  filepath ++ ": " ++ toString lines ++ " lines (max " ++ toString MAX_LINES ++ ")"

/-- The filesystem seen by `open`: `none` models any exception raised while
opening or reading the file (missing file, permission error, I/O error),
`some content` the successfully read text. -/
def FileSystem : Type := String → Option (List Char)

/-- The `for filepath in sys.argv[1:]` loop of `main` (lines 9-17): returns
the lines printed to standard output and the final value of `failed`.  The
`none` branch is the `except Exception: pass` handler (lines 16-17). -/
def mainLoop (fs : FileSystem) : List String → Bool → List String × Bool
  | [], failed => ([], failed)
  | filepath :: rest, failed =>
    match fs filepath with
    | none => mainLoop fs rest failed
    | some content =>
      let lines := lineCount content
      if MAX_LINES < lines then
        let r := mainLoop fs rest true
        (diagnostic filepath lines :: r.1, r.2)
      else
        mainLoop fs rest failed

/-- The script's `main` (lines 7-18): runs the loop with `failed = False` and
returns the standard-output lines together with `1 if failed else 0`. -/
def main (fs : FileSystem) (argv : List String) : List String × Nat :=
  let r := mainLoop fs argv false
  (r.1, if r.2 then 1 else 0)

/-- The condition under which the loop body prints and sets `failed` for a
path: the file is readable and over the limit. -/
def exceeds (fs : FileSystem) (filepath : String) : Bool :=
  match fs filepath with
  | none => false
  | some content => decide (MAX_LINES < lineCount content)

/-- The diagnostic produced for one path, when one is produced. -/
def diagOf (fs : FileSystem) (filepath : String) : Option String :=
  match fs filepath with
  | none => none
  | some content =>
    if MAX_LINES < lineCount content then
      some (diagnostic filepath (lineCount content))
    else none

/-- Concrete file of 501 lines, for evaluating the theorems. -/
def bigContent : List Char := List.replicate 501 NL

/-- Concrete file of 3 lines. -/
def smallContent : List Char := [Char.ofNat 97, NL, Char.ofNat 98, NL, Char.ofNat 99, NL]

/-- Concrete file of exactly 500 lines. -/
def boundaryContent : List Char := List.replicate 500 NL

/-- Concrete filesystem with three readable files; every other path raises. -/
def fsTest : FileSystem := fun p =>
  if p = "big.txt" then some bigContent
  else if p = "small.txt" then some smallContent
  else if p = "boundary.txt" then some boundaryContent
  else none

/-! Helper lemmas characterising the loop. -/

lemma exceeds_eq_true_iff (fs : FileSystem) (p : String) :
    exceeds fs p = true ↔ ∃ c, fs p = some c ∧ MAX_LINES < lineCount c := by
  unfold exceeds
  cases h : fs p with
  | none => simp
  | some content => simp [h]

lemma mainLoop_fst (fs : FileSystem) (l : List String) (failed : Bool) :
    (mainLoop fs l failed).1 = l.filterMap (diagOf fs) := by
  induction l generalizing failed with
  | nil => rfl
  | cons filepath rest ih =>
    simp only [mainLoop, diagOf, List.filterMap_cons]
    cases h : fs filepath with
    | none => exact ih failed
    | some content =>
      by_cases hgt : MAX_LINES < lineCount content
      · simp [hgt, ih true]
      · simp [hgt, ih failed]

lemma mainLoop_snd (fs : FileSystem) (l : List String) (failed : Bool) :
    (mainLoop fs l failed).2 = (failed || l.any (exceeds fs)) := by
  induction l generalizing failed with
  | nil => simp [mainLoop]
  | cons filepath rest ih =>
    simp only [mainLoop, exceeds, List.any_cons]
    cases h : fs filepath with
    | none => simp [ih failed]
    | some content =>
      by_cases hgt : MAX_LINES < lineCount content
      · simp [hgt, ih true]
      · simp [hgt, ih failed]

lemma main_fst (fs : FileSystem) (argv : List String) :
    (main fs argv).1 = argv.filterMap (diagOf fs) := by
  simpa [main] using mainLoop_fst fs argv false

lemma main_snd (fs : FileSystem) (argv : List String) :
    (main fs argv).2 = if argv.any (exceeds fs) then 1 else 0 := by
  simp [main, mainLoop_snd fs argv false]

lemma main_snd_eq_one_iff (fs : FileSystem) (argv : List String) :
    (main fs argv).2 = 1 ↔ ∃ p ∈ argv, ∃ c, fs p = some c ∧ MAX_LINES < lineCount c := by
  rw [main_snd]
  by_cases h : argv.any (exceeds fs)
  · simp only [h, if_true, true_iff]
    rcases List.any_eq_true.mp h with ⟨p, hp, hex⟩
    exact ⟨p, hp, (exceeds_eq_true_iff fs p).mp hex⟩
  · simp only [h, if_false]
    constructor
    · intro h01
      exact absurd h01 (by decide)
    · rintro ⟨p, hp, c, hc, hgt⟩
      exact absurd (List.any_eq_true.mpr ⟨p, hp, (exceeds_eq_true_iff fs p).mpr ⟨c, hc, hgt⟩⟩) h

lemma filterMap_filter_ne {g : String → Option String} {p : String} (hg : g p = none)
    (l : List String) :
    (l.filter (fun q => q ≠ p)).filterMap g = l.filterMap g := by
  induction l with
  | nil => rfl
  | cons q rest ih =>
    by_cases hq : q = p
    · have h1 : (q :: rest).filter (fun q => q ≠ p) = rest.filter (fun q => q ≠ p) := by
        simp [List.filter_cons, hq]
      have h2 : (q :: rest).filterMap g = rest.filterMap g := by
        subst hq
        simp [List.filterMap_cons, hg]
      rw [h1, h2, ih]
    · have h1 : (q :: rest).filter (fun q => q ≠ p) = q :: rest.filter (fun q => q ≠ p) := by
        simp [List.filter_cons, hq]
      rw [h1, List.filterMap_cons, List.filterMap_cons, ih]

lemma any_filter_ne {f : String → Bool} {p : String} (hf : f p = false)
    (l : List String) :
    (l.filter (fun q => q ≠ p)).any f = l.any f := by
  induction l with
  | nil => rfl
  | cons q rest ih =>
    by_cases hq : q = p
    · have h1 : (q :: rest).filter (fun q => q ≠ p) = rest.filter (fun q => q ≠ p) := by
        simp [List.filter_cons, hq]
      have h2 : (q :: rest).any f = rest.any f := by
        subst hq
        simp [List.any_cons, hf]
      rw [h1, h2, ih]
    · have h1 : (q :: rest).filter (fun q => q ≠ p) = q :: rest.filter (fun q => q ≠ p) := by
        simp [List.filter_cons, hq]
      rw [h1, List.any_cons, List.any_cons, ih]

lemma main_filter_ne (fs : FileSystem) (p : String)
    (hg : diagOf fs p = none) (hf : exceeds fs p = false) (argv : List String) :
    main fs (argv.filter (fun q => q ≠ p)) = main fs argv := by
  have h1 := main_fst fs argv
  have h2 := main_fst fs (argv.filter (fun q => q ≠ p))
  have h3 := main_snd fs argv
  have h4 := main_snd fs (argv.filter (fun q => q ≠ p))
  refine Prod.ext ?_ ?_
  · rw [h1, h2, filterMap_filter_ne hg]
  · rw [h3, h4, any_filter_ne hf]

lemma readlinesAux_length (cs : List Char) (acc : List Char) :
    (readlinesAux cs acc).length =
      cs.count NL +
        (if cs = [] then (if acc = [] then 0 else 1)
         else if cs.getLast? = some NL then 0 else 1) := by
  induction cs generalizing acc with
  | nil =>
    simp only [readlinesAux, List.count_nil, if_true]
    cases acc with
    | nil => simp
    | cons a as => simp
  | cons c rest ih =>
    simp only [readlinesAux]
    by_cases hc : c = NL
    · subst hc
      simp only [if_true, List.length_cons, ih []]
      cases rest with
      | nil => simp [List.count_cons]
      | cons r rs =>
        simp only [List.getLast?_cons_cons, List.count_cons]
        by_cases hlast : (r :: rs).getLast? = some NL
        · simp [hlast]
        · simp [hlast]
    · rw [if_neg hc, ih (c :: acc)]
      cases rest with
      | nil =>
        simp only [List.count_cons, List.count_nil]
        simp [hc, List.getLast?]
      | cons r rs =>
        simp only [List.getLast?_cons_cons, List.count_cons]
        simp [hc]

lemma diagnostic_format (p : String) (n : Nat) :
    diagnostic p n = p ++ ": " ++ toString n ++ " lines (max 500)" := by
  unfold diagnostic
  simp only [String.append_assoc]
  congr 1

lemma main_filterMap_replicate {g : String → Option String} {p d : String}
    (hg : g p = some d) (n : Nat) :
    (List.replicate n p).filterMap g = List.replicate n d := by
  induction n with
  | zero => rfl
  | succ n ih => simp [List.replicate_succ, List.filterMap_cons, hg, ih]

/-- Claim C1: main returns exit code 1 exactly when at least one
successfully-read file has a line count strictly greater than 500, and exit
code 0 otherwise (in particular when the argument list is empty or every path
is unreadable). -/
theorem exit_code_characterisation (fs : FileSystem) (argv : List String) :
    ((main fs argv).2 = 1 ↔ ∃ p ∈ argv, ∃ c, fs p = some c ∧ MAX_LINES < lineCount c) ∧
    ((main fs argv).2 = 0 ↔ ¬∃ p ∈ argv, ∃ c, fs p = some c ∧ MAX_LINES < lineCount c) := by
  have h1 := main_snd_eq_one_iff fs argv
  have h01 : (main fs argv).2 = 0 ∨ (main fs argv).2 = 1 := by
    rw [main_snd]
    by_cases h : argv.any (exceeds fs) <;> simp [h]
  refine ⟨h1, ?_, ?_⟩
  · intro h0 hex
    have := h1.mpr hex
    omega
  · intro hno
    rcases h01 with h0 | hone
    · exact h0
    · exact absurd (h1.mp hone) hno

/-- Claim C2: every file that opens successfully with line count above 500
produces exactly one diagnostic on standard output, in the exact format
`path: count lines (max 500)` with the literal 500, and the exit code is 1.
The first conjunct records that the output is the occurrence-by-occurrence
image of the argument list, so each offending occurrence contributes exactly
one line, namely the one in the second conjunct. -/
theorem oversized_diagnostic (fs : FileSystem) (argv : List String) (p : String)
    (c : List Char) (hmem : p ∈ argv) (hfs : fs p = some c)
    (hgt : MAX_LINES < lineCount c) :
    (main fs argv).1 = argv.filterMap (diagOf fs) ∧
    diagOf fs p = some (diagnostic p (lineCount c)) ∧
    diagnostic p (lineCount c) ∈ (main fs argv).1 ∧
    (main fs argv).2 = 1 ∧
    diagnostic p (lineCount c) =
      p ++ ": " ++ toString (lineCount c) ++ " lines (max 500)" := by
  have hdiag : diagOf fs p = some (diagnostic p (lineCount c)) := by
    simp [diagOf, hfs, hgt]
  refine ⟨main_fst fs argv, hdiag, ?_, ?_, diagnostic_format p (lineCount c)⟩
  · rw [main_fst]
    exact List.mem_filterMap.mpr ⟨p, hmem, hdiag⟩
  · exact (main_snd_eq_one_iff fs argv).mpr ⟨p, hmem, c, hfs, hgt⟩

theorem oversized_diagnostic_witness :
    (main fsTest ["big.txt"]).1 = (["big.txt"] : List String).filterMap (diagOf fsTest) ∧
    diagOf fsTest "big.txt" = some (diagnostic "big.txt" (lineCount bigContent)) ∧
    diagnostic "big.txt" (lineCount bigContent) ∈ (main fsTest ["big.txt"]).1 ∧
    (main fsTest ["big.txt"]).2 = 1 ∧
    diagnostic "big.txt" (lineCount bigContent) =
      "big.txt" ++ ": " ++ toString (lineCount bigContent) ++ " lines (max 500)" :=
  oversized_diagnostic fsTest ["big.txt"] "big.txt" bigContent (by decide)
    (by decide) (by decide)

/-- Claim C3: a readable file with line count at most 500 produces no
diagnostic and does not contribute to a nonzero exit code (removing all its
occurrences changes nothing); the boundary is strict: exactly 500 lines give
no diagnostic and exit 0 on a single-path run, exactly 501 lines give a
diagnostic and exit 1. -/
theorem threshold_boundary (fs : FileSystem) (p : String) (c : List Char)
    (hfs : fs p = some c) :
    (lineCount c ≤ MAX_LINES →
      (∀ argv, main fs (argv.filter (fun q => q ≠ p)) = main fs argv) ∧
      main fs [p] = ([], 0)) ∧
    (lineCount c = 500 → main fs [p] = ([], 0)) ∧
    (lineCount c = 501 → main fs [p] = ([diagnostic p 501], 1)) := by
  have hpass : lineCount c ≤ MAX_LINES →
      (∀ argv, main fs (argv.filter (fun q => q ≠ p)) = main fs argv) ∧
      main fs [p] = ([], 0) := by
    intro hle
    have hxf : exceeds fs p = false := by
      simp [exceeds, hfs, Nat.not_lt.mpr hle]
    have hdf : diagOf fs p = none := by
      simp [diagOf, hfs, Nat.not_lt.mpr hle]
    refine ⟨fun argv => main_filter_ne fs p hdf hxf argv, ?_⟩
    refine Prod.ext ?_ ?_
    · rw [main_fst]
      simp [List.filterMap_cons, hdf]
    · rw [main_snd]
      simp [exceeds, hfs, Nat.not_lt.mpr hle]
  refine ⟨hpass, fun h500 => (hpass (by rw [h500]; decide)).2, fun h501 => ?_⟩
  have hgt : MAX_LINES < lineCount c := by rw [h501]; decide
  have hdf : diagOf fs p = some (diagnostic p (lineCount c)) := by
    simp [diagOf, hfs, hgt]
  have hx : exceeds fs p = true := by simp [exceeds, hfs, hgt]
  refine Prod.ext ?_ ?_
  · rw [main_fst]
    simp [List.filterMap_cons, hdf, h501]
  · rw [main_snd]
    simp [hx]

theorem threshold_boundary_witness :
    main fsTest ["boundary.txt"] = ([], 0) :=
  (threshold_boundary fsTest "boundary.txt" boundaryContent (by decide)).2.1 (by decide)

/-- Claim C4: a path whose file cannot be opened or read is fully swallowed:
in the total-function embedding `main` consumes the `none` result (the raised
exception) without propagating it, that path produces no diagnostic, and the
whole result — output and exit code — is the same as if the path had not been
in the argument list. -/
theorem unreadable_swallowed (fs : FileSystem) (p : String) (hfs : fs p = none)
    (xs ys : List String) :
    main fs (xs ++ p :: ys) = main fs (xs ++ ys) ∧
    (∀ argv, main fs (argv.filter (fun q => q ≠ p)) = main fs argv) ∧
    diagOf fs p = none := by
  have hxf : exceeds fs p = false := by simp [exceeds, hfs]
  have hdf : diagOf fs p = none := by simp [diagOf, hfs]
  refine ⟨?_, fun argv => main_filter_ne fs p hdf hxf argv, hdf⟩
  refine Prod.ext ?_ ?_
  · rw [main_fst, main_fst]
    simp [List.filterMap_append, List.filterMap_cons, hdf]
  · rw [main_snd, main_snd]
    simp [List.any_append, List.any_cons, hxf]

theorem unreadable_swallowed_witness :
    main fsTest (["small.txt"] ++ "missing.txt" :: ["big.txt"]) =
      main fsTest (["small.txt"] ++ ["big.txt"]) :=
  (unreadable_swallowed fsTest "missing.txt" (by decide) ["small.txt"] ["big.txt"]).1

/-- Claim C5: with an empty argument list, main returns exit code 0 and
writes nothing to standard output. -/
theorem empty_argv (fs : FileSystem) : main fs [] = ([], 0) := rfl

/-- Claim C6: paths are processed strictly sequentially in the order given:
the output is the order-preserving occurrence-by-occurrence image of the
argument list, and output of a concatenated argument list is the
concatenation of the outputs. -/
theorem sequential_order (fs : FileSystem) (argv : List String) :
    (main fs argv).1 = argv.filterMap (diagOf fs) ∧
    (∀ xs ys, (main fs (xs ++ ys)).1 = (main fs xs).1 ++ (main fs ys).1) := by
  refine ⟨main_fst fs argv, fun xs ys => ?_⟩
  rw [main_fst, main_fst, main_fst, List.filterMap_append]

/-- Claim C7: the line count is the number of newline-delimited units: the
number of line-break characters, plus one when the content is non-empty and
does not end in a line break (a final line lacking its terminator still
counts). -/
theorem lineCount_newline_units (content : List Char) :
    lineCount content =
      content.count NL +
        (if content = [] ∨ content.getLast? = some NL then 0 else 1) := by
  unfold lineCount readlines
  rw [readlinesAux_length]
  by_cases h0 : content = []
  · simp [h0]
  · by_cases hl : content.getLast? = some NL
    · simp [h0, hl]
    · simp [h0, hl]

/-- Claim C8: for a readable file, the computed line count is a non-negative
integer, the constant maximum is 500, and the file is marked exceeded — one
diagnostic emitted and the single-path run failed — exactly when the line
count is strictly greater than the maximum. -/
theorem line_count_invariants (fs : FileSystem) (p : String) (c : List Char)
    (hfs : fs p = some c) :
    0 ≤ lineCount c ∧
    MAX_LINES = 500 ∧
    (MAX_LINES < lineCount c ↔
      (main fs [p]).1 = [diagnostic p (lineCount c)] ∧ (main fs [p]).2 = 1) ∧
    (lineCount c ≤ MAX_LINES ↔ (main fs [p]).1 = [] ∧ (main fs [p]).2 = 0) := by
  refine ⟨Nat.zero_le _, rfl, ⟨?_, ?_⟩, ⟨?_, ?_⟩⟩
  · intro hgt
    have hdf : diagOf fs p = some (diagnostic p (lineCount c)) := by
      simp [diagOf, hfs, hgt]
    have hx : exceeds fs p = true := by simp [exceeds, hfs, hgt]
    constructor
    · rw [main_fst]
      simp [List.filterMap_cons, hdf]
    · rw [main_snd]
      simp [hx]
  · rintro ⟨hout, hcode⟩
    by_contra hle
    push_neg at hle
    have hx : exceeds fs p = false := by
      simp [exceeds, hfs, Nat.not_lt.mpr hle]
    rw [main_snd] at hcode
    simp [hx] at hcode
  · intro hle
    have hdf : diagOf fs p = none := by
      simp [diagOf, hfs, Nat.not_lt.mpr hle]
    have hx : exceeds fs p = false := by
      simp [exceeds, hfs, Nat.not_lt.mpr hle]
    constructor
    · rw [main_fst]
      simp [List.filterMap_cons, hdf]
    · rw [main_snd]
      simp [hx]
  · rintro ⟨hout, hcode⟩
    by_contra hgt
    push_neg at hgt
    have hx : exceeds fs p = true := by simp [exceeds, hfs, hgt]
    rw [main_snd] at hcode
    simp [hx] at hcode

theorem line_count_invariants_witness :
    0 ≤ lineCount bigContent ∧
    MAX_LINES = 500 ∧
    (MAX_LINES < lineCount bigContent ↔
      (main fsTest ["big.txt"]).1 = [diagnostic "big.txt" (lineCount bigContent)] ∧
      (main fsTest ["big.txt"]).2 = 1) ∧
    (lineCount bigContent ≤ MAX_LINES ↔
      (main fsTest ["big.txt"]).1 = [] ∧ (main fsTest ["big.txt"]).2 = 0) :=
  line_count_invariants fsTest "big.txt" bigContent (by decide)

/-- Claim C9: each occurrence of a path is processed independently: an
oversized path appearing n times among the arguments yields n diagnostic
lines, one per occurrence, and each occurrence inserted anywhere in the
argument list contributes its own line at the corresponding position. -/
theorem duplicate_occurrences (fs : FileSystem) (p : String) (c : List Char)
    (hfs : fs p = some c) (hgt : MAX_LINES < lineCount c) :
    (∀ n, (main fs (List.replicate n p)).1 =
      List.replicate n (diagnostic p (lineCount c))) ∧
    (∀ xs ys, (main fs (xs ++ p :: ys)).1 =
      (main fs xs).1 ++ diagnostic p (lineCount c) :: (main fs ys).1) := by
  have hdf : diagOf fs p = some (diagnostic p (lineCount c)) := by
    simp [diagOf, hfs, hgt]
  constructor
  · intro n
    rw [main_fst]
    exact main_filterMap_replicate hdf n
  · intro xs ys
    rw [main_fst, main_fst, main_fst, List.filterMap_append, List.filterMap_cons, hdf]

theorem duplicate_occurrences_witness :
    (main fsTest (List.replicate 3 "big.txt")).1 =
      List.replicate 3 (diagnostic "big.txt" (lineCount bigContent)) :=
  (duplicate_occurrences fsTest "big.txt" bigContent (by decide) (by decide)).1 3

/-- Claim C10: the failure flag is monotone: when an argument list yields exit
code 1, appending any further paths still yields exit code 1. -/
theorem failure_monotone (fs : FileSystem) (argv more : List String)
    (h : (main fs argv).2 = 1) :
    (main fs (argv ++ more)).2 = 1 := by
  rcases (main_snd_eq_one_iff fs argv).mp h with ⟨p, hp, c, hc, hgt⟩
  exact (main_snd_eq_one_iff fs (argv ++ more)).mpr
    ⟨p, List.mem_append_left more hp, c, hc, hgt⟩

theorem failure_monotone_witness :
    (main fsTest (["big.txt"] ++ ["missing.txt", "small.txt"])).2 = 1 :=
  failure_monotone fsTest ["big.txt"] ["missing.txt", "small.txt"] (by decide)

end CheckFileLength
